import Mathlib

/-!
# Verification of the Tasky background-generation scripts

Shallow embedding of the procedural PNG background generators found in
`scripts/generate_png_backgrounds.py`, `scripts/generate_epic_backgrounds.py`
and `scripts/generate_unique_backgrounds.py`, together with proofs settling
the specification claims about them.

Modelling conventions:
* Python `float` arithmetic is modelled by `ℚ`; the only float operations the
  proved properties depend on are exact in IEEE double precision as well
  (multiplication/addition of small integers, division, comparison, and
  `sqrt 0 = 0`), and `math.sqrt` is abstracted as a function parameter where
  it occurs.
* Python's `int(...)` truncation towards zero is `pyInt`.
* Python's global `random` module state is threaded explicitly as an `Rng`
  value; the concrete generator is a linear congruential generator rather
  than the Mersenne twister — every proved property is independent of the
  concrete values of the pseudo-random stream.
* A PIL `Image` in RGB mode is a list of rows of RGB triples; `ImageDraw`
  primitives clip silently at the canvas border, which the embedded drawing
  operations reproduce by only ever mapping over existing pixels.
-/

attribute [local semireducible] Rat.mul Rat.add Rat.sub Rat.inv

/-- An RGB colour triple. Components are unbounded integers here; the
renderers only ever produce values in `[0, 255]`. -/
abbrev RGB := ℤ × ℤ × ℤ

/-- Python's `int(x)` applied to a float: truncation towards zero. -/
def pyInt (x : ℚ) : ℤ := if 0 ≤ x then ⌊x⌋ else -⌊-x⌋

theorem pyInt_intCast (n : ℤ) : pyInt (n : ℚ) = n := by
  unfold pyInt
  by_cases h : (0 : ℚ) ≤ (n : ℚ)
  · simp [h]
  · simp [h]
    have : (-n : ℚ) = ((-n : ℤ) : ℚ) := by push_cast; ring
    rw [this, Int.floor_intCast]
    ring

theorem pyInt_eq_floor {x : ℚ} (h : 0 ≤ x) : pyInt x = ⌊x⌋ := by
  unfold pyInt; simp [h]

/-! ## A model of CPython `int(s, 16)` (restricted to ASCII input)

`hex_to_rgb` feeds two-character slices of its input to `int(·, 16)`.  The
model below follows CPython's grammar for base-16 integer literals on ASCII
strings: optional surrounding whitespace, an optional sign, an optional
`0x`/`0X` prefix, then a nonempty run of hex digits with single underscores
allowed between digits.  A parse failure models the `ValueError` the real
`int` raises. -/

/-- The value of one hexadecimal digit character, if it is one. -/
def hexVal (c : Char) : Option ℕ :=
  if '0' ≤ c ∧ c ≤ '9' then some (c.toNat - '0'.toNat)
  else if 'a' ≤ c ∧ c ≤ 'f' then some (c.toNat - 'a'.toNat + 10)
  else if 'A' ≤ c ∧ c ≤ 'F' then some (c.toNat - 'A'.toNat + 10)
  else none

/-- ASCII whitespace stripped by Python's `int`. -/
def isPyWs (c : Char) : Bool :=
  c == ' ' || c == '\t' || c == '\n' || c == '\r' || c == '\x0b' || c == '\x0c'

/-- Hex digits continued after a first digit: single underscores may appear
between digits. -/
def hexDigitsVal : ℕ → List Char → Option ℕ
  | acc, [] => some acc
  | acc, c :: cs =>
    if c = '_' then
      match cs with
      | [] => none
      | c' :: cs' =>
        match hexVal c' with
        | some v => hexDigitsVal (16 * acc + v) cs'
        | none => none
    else
      match hexVal c with
      | some v => hexDigitsVal (16 * acc + v) cs
      | none => none

/-- A nonempty run of hex digits (underscores between digits allowed). -/
def parsePyHexDigits : List Char → Option ℕ
  | [] => none
  | c :: cs =>
    match hexVal c with
    | some v => hexDigitsVal v cs
    | none => none

/-- Handling of the optional `0x`/`0X` prefix once the string is known to
have at least two characters. -/
def pyIntHexCoreAux (c0 c1 : Char) (rest : List Char) : Option ℕ :=
  if c0 = '0' ∧ (c1 = 'x' ∨ c1 = 'X') then
    (match rest with
     | '_' :: rest' => parsePyHexDigits rest'
     | _ => parsePyHexDigits rest)
  else parsePyHexDigits (c0 :: c1 :: rest)

/-- The digit part, with an optional `0x`/`0X` prefix (a single underscore may
follow the prefix). -/
def pyIntHexCore (s : List Char) : Option ℕ :=
  match s with
  | c0 :: c1 :: rest => pyIntHexCoreAux c0 c1 rest
  | _ => parsePyHexDigits s

/-- Handling of the optional sign once surrounding whitespace is stripped and
the string is known to be nonempty. -/
def pyIntHexAux (c : Char) (rest : List Char) : Option ℤ :=
  if c = '+' then (pyIntHexCore rest).map (fun n => (n : ℤ))
  else if c = '-' then (pyIntHexCore rest).map (fun n => -(n : ℤ))
  else (pyIntHexCore (c :: rest)).map (fun n => (n : ℤ))

/-- CPython `int(s, 16)` on an ASCII string: `none` models a raised
`ValueError`. -/
def pyIntHex (s : List Char) : Option ℤ :=
  let t := ((s.dropWhile isPyWs).reverse.dropWhile isPyWs).reverse
  match t with
  | [] => none
  | c :: rest => pyIntHexAux c rest

/-! ## `hex_to_rgb` (generate_png_backgrounds.py lines 13-16,
also duplicated in generate_unique_backgrounds.py lines 13-16)

```python
def hex_to_rgb(hex_color):
    hex_color = hex_color.lstrip('#')
    return tuple(int(hex_color[i:i+2], 16) for i in (0, 2, 4))
```
-/

/-- Python `s[i:i+n]` for nonnegative `i`. -/
def pySlice (s : List Char) (i n : ℕ) : List Char := (s.drop i).take n

/-- The tuple comprehension `tuple(int(hex_color[i:i+2], 16) for i in (0, 2, 4))`:
the first failing slice aborts with a `ValueError` (`none`). -/
def hexTripleParse (cs : List Char) : Option RGB :=
  match pyIntHex (pySlice cs 0 2), pyIntHex (pySlice cs 2 2),
        pyIntHex (pySlice cs 4 2) with
  | some r, some g, some b => some (r, g, b)
  | _, _, _ => none

/-- `hex_to_rgb`: strip every leading `'#'`, parse the three two-character
slices at offsets 0, 2 and 4 as base-16 integers. `none` models a raised
`ValueError`. -/
def hex_to_rgb (s : String) : Option RGB :=
  hexTripleParse (s.data.dropWhile (· = '#'))

/-! ## `interpolate_color` (generate_png_backgrounds.py lines 61-70)

```python
r = int(r1 + (r2 - r1) * t)
```
applied to each of the three channels. -/

/-- One channel of `interpolate_color`. -/
def interpChan (a b : ℤ) (t : ℚ) : ℤ := pyInt ((a : ℚ) + ((b : ℚ) - (a : ℚ)) * t)

/-- `interpolate_color(color1, color2, t)`. -/
def interpolate_color (c1 c2 : RGB) (t : ℚ) : RGB :=
  (interpChan c1.1 c2.1 t, interpChan c1.2.1 c2.2.1 t, interpChan c1.2.2 c2.2.2 t)

example : interpolate_color (0, 0, 0) (255, 255, 255) (1/4) = (63, 63, 63) := by decide
example : hex_to_rgb "#ff00a0" = some (255, 0, 160) := by decide
example : hex_to_rgb "abcde" = some (171, 205, 14) := by decide
example : hex_to_rgb "zzzzzz" = none := by decide

/-! ## Facts about hexadecimal digit characters -/

/-- `c` is one of the characters `int(·, 16)` accepts as a digit. -/
def isHexDigit (c : Char) : Bool := (hexVal c).isSome

theorem char_toNat_le_of_le {a b : Char} (h : a ≤ b) : a.toNat ≤ b.toNat := h

/-- The `toNat` of a hex digit lies in one of the three ASCII digit ranges. -/
theorem hexVal_isSome_ranges {c : Char} (h : (hexVal c).isSome) :
    (48 ≤ c.toNat ∧ c.toNat ≤ 57) ∨ (97 ≤ c.toNat ∧ c.toNat ≤ 102) ∨
    (65 ≤ c.toNat ∧ c.toNat ≤ 70) := by
  have e0 : '0'.toNat = 48 := rfl
  have e9 : '9'.toNat = 57 := rfl
  have ea : 'a'.toNat = 97 := rfl
  have ef : 'f'.toNat = 102 := rfl
  have eA : 'A'.toNat = 65 := rfl
  have eF : 'F'.toNat = 70 := rfl
  unfold hexVal at h
  split_ifs at h with h1 h2 h3
  · have l1 := char_toNat_le_of_le h1.1
    have l2 := char_toNat_le_of_le h1.2
    exact Or.inl (by omega)
  · have l1 := char_toNat_le_of_le h2.1
    have l2 := char_toNat_le_of_le h2.2
    exact Or.inr (Or.inl (by omega))
  · have l1 := char_toNat_le_of_le h3.1
    have l2 := char_toNat_le_of_le h3.2
    exact Or.inr (Or.inr (by omega))
  · simp at h

/-- A hex digit's value is below 16. -/
theorem hexVal_lt_16 {c : Char} {v : ℕ} (h : hexVal c = some v) : v < 16 := by
  have e0 : '0'.toNat = 48 := rfl
  have e9 : '9'.toNat = 57 := rfl
  have ea : 'a'.toNat = 97 := rfl
  have ef : 'f'.toNat = 102 := rfl
  have eA : 'A'.toNat = 65 := rfl
  have eF : 'F'.toNat = 70 := rfl
  unfold hexVal at h
  split_ifs at h with h1 h2 h3 <;> injection h with h' <;> subst h'
  · have l2 := char_toNat_le_of_le h1.2
    omega
  · have l2 := char_toNat_le_of_le h2.2
    omega
  · have l2 := char_toNat_le_of_le h3.2
    omega

theorem char_ne_of_toNat_ne {a b : Char} (h : a.toNat ≠ b.toNat) : a ≠ b := by
  intro he; exact h (by rw [he])

/-- A hex digit is none of the characters that get special treatment in
`pyIntHex`. -/
theorem hexDigit_not_special {c : Char} (h : (hexVal c).isSome) :
    c ≠ '#' ∧ isPyWs c = false ∧ c ≠ '+' ∧ c ≠ '-' ∧ c ≠ '_' ∧
    c ≠ 'x' ∧ c ≠ 'X' := by
  have hr := hexVal_isSome_ranges h
  have hne : ∀ d : Char, (d.toNat < 48 ∨ (57 < d.toNat ∧ d.toNat < 65) ∨
      (70 < d.toNat ∧ d.toNat < 97) ∨ 102 < d.toNat) → c ≠ d := by
    intro d hd
    refine char_ne_of_toNat_ne ?_
    rcases hr with ⟨h1, h2⟩ | ⟨h1, h2⟩ | ⟨h1, h2⟩ <;> omega
  refine ⟨hne '#' (by decide), ?_, hne '+' (by decide), hne '-' (by decide),
    hne '_' (by decide), hne 'x' (by decide), hne 'X' (by decide)⟩
  have h32 := hne ' ' (by decide)
  have h9 := hne '\t' (by decide)
  have h10 := hne '\n' (by decide)
  have h13 := hne '\r' (by decide)
  have h11 := hne '\x0b' (by decide)
  have h12 := hne '\x0c' (by decide)
  unfold isPyWs
  simp [h32, h9, h10, h13, h11, h12]

/-- `int(·, 16)` on a slice made of exactly two hex digits. -/
theorem pyIntHex_pair {a b : Char} {va vb : ℕ}
    (ha : hexVal a = some va) (hb : hexVal b = some vb) :
    pyIntHex [a, b] = some ((16 * va + vb : ℕ) : ℤ) := by
  obtain ⟨_, hwa, hpa, hma, hua, hxa, hXa⟩ :=
    hexDigit_not_special (c := a) (by rw [ha]; rfl)
  obtain ⟨_, hwb, hpb, hmb, hub, hxb, hXb⟩ :=
    hexDigit_not_special (c := b) (by rw [hb]; rfl)
  have ht : ((([a, b].dropWhile isPyWs).reverse.dropWhile isPyWs)).reverse
      = [a, b] := by
    simp [List.dropWhile, hwa, hwb]
  unfold pyIntHex
  rw [ht]
  show pyIntHexAux a [b] = _
  unfold pyIntHexAux
  rw [if_neg hpa, if_neg hma]
  show (pyIntHexCoreAux a b []).map (fun n => (n : ℤ)) = _
  unfold pyIntHexCoreAux
  rw [if_neg (by rintro ⟨rfl, hx⟩; rcases hx with rfl | rfl <;> simp_all)]
  show ((parsePyHexDigits [a, b]).map fun n => (n : ℤ)) = _
  simp only [parsePyHexDigits]
  rw [ha]
  show ((hexDigitsVal va [b]).map fun n => (n : ℤ)) = _
  simp only [hexDigitsVal]
  rw [if_neg hub, hb]
  rfl

/-- Characterisation of `hex_to_rgb` on a six-hex-digit string. -/
theorem hex_to_rgb_valid6 {a b c d e f : Char}
    {va vb vc vd ve vf : ℕ} (s : String) (hs : s.data = [a, b, c, d, e, f])
    (ha : hexVal a = some va) (hb : hexVal b = some vb)
    (hc : hexVal c = some vc) (hd : hexVal d = some vd)
    (he : hexVal e = some ve) (hf : hexVal f = some vf) :
    hex_to_rgb s =
      some (((16 * va + vb : ℕ) : ℤ), ((16 * vc + vd : ℕ) : ℤ),
        ((16 * ve + vf : ℕ) : ℤ)) := by
  have hhash : a ≠ '#' := (hexDigit_not_special (c := a) (by rw [ha]; rfl)).1
  unfold hex_to_rgb
  rw [hs]
  rw [show List.dropWhile (· = '#') [a, b, c, d, e, f] = [a, b, c, d, e, f] by
    simp [List.dropWhile, hhash]]
  have h1 : pySlice [a, b, c, d, e, f] 0 2 = [a, b] := by simp [pySlice]
  have h2 : pySlice [a, b, c, d, e, f] 2 2 = [c, d] := by simp [pySlice]
  have h3 : pySlice [a, b, c, d, e, f] 4 2 = [e, f] := by simp [pySlice]
  unfold hexTripleParse
  rw [h1, h2, h3, pyIntHex_pair ha hb, pyIntHex_pair hc hd, pyIntHex_pair he hf]

/-! ## Claim C2: behaviour of the Color Resolver on valid and malformed input -/

/-- `s` consists of exactly six hexadecimal digit characters. -/
def ValidHex6 (s : String) : Prop :=
  s.data.length = 6 ∧ ∀ c ∈ s.data, isHexDigit c

/-- A colour component in `[0, 255]`. -/
def inRange255 (n : ℤ) : Prop := 0 ≤ n ∧ n ≤ 255

/-- An RGB triple with all components in `[0, 255]`. -/
def inRangeRGB (c : RGB) : Prop :=
  inRange255 c.1 ∧ inRange255 c.2.1 ∧ inRange255 c.2.2

theorem pyIntHex_nil : pyIntHex [] = none := rfl

/-- When fewer than five characters remain after `'#'`-stripping, the third
slice is empty and `int('', 16)` raises. -/
theorem hexTripleParse_none_of_short {cs : List Char} (h : cs.length ≤ 4) :
    hexTripleParse cs = none := by
  have h3 : pySlice cs 4 2 = [] := by
    unfold pySlice
    rw [List.drop_eq_nil_of_le h]
    rfl
  unfold hexTripleParse
  rw [h3, pyIntHex_nil]
  cases pyIntHex (pySlice cs 0 2) <;> cases pyIntHex (pySlice cs 2 2) <;> rfl

/-- On a valid six-hex-digit string, `hex_to_rgb` returns a triple of
components in `[0, 255]`. -/
theorem hex_to_rgb_of_validHex6 {s : String} (h : ValidHex6 s) :
    ∃ r g b : ℤ, hex_to_rgb s = some (r, g, b) ∧
      inRange255 r ∧ inRange255 g ∧ inRange255 b := by
  obtain ⟨hlen, hhex⟩ := h
  rcases hd : s.data with _ | ⟨a, _ | ⟨b, _ | ⟨c, _ | ⟨d, _ | ⟨e, _ | ⟨f, rest⟩⟩⟩⟩⟩⟩ <;>
    rw [hd] at hlen <;> simp at hlen
  subst hlen
  have hmem : ∀ c ∈ s.data, (hexVal c).isSome := fun c hc => hhex c hc
  rw [hd] at hmem
  obtain ⟨va, hva⟩ := Option.isSome_iff_exists.mp (hmem a (by simp))
  obtain ⟨vb, hvb⟩ := Option.isSome_iff_exists.mp (hmem b (by simp))
  obtain ⟨vc, hvc⟩ := Option.isSome_iff_exists.mp (hmem c (by simp))
  obtain ⟨vd, hvd⟩ := Option.isSome_iff_exists.mp (hmem d (by simp))
  obtain ⟨ve, hve⟩ := Option.isSome_iff_exists.mp (hmem e (by simp))
  obtain ⟨vf, hvf⟩ := Option.isSome_iff_exists.mp (hmem f (by simp))
  refine ⟨_, _, _, hex_to_rgb_valid6 s hd hva hvb hvc hvd hve hvf, ?_, ?_, ?_⟩ <;>
    constructor <;> [positivity; skip; positivity; skip; positivity; skip]
  · have h1 := hexVal_lt_16 hva
    have h2 := hexVal_lt_16 hvb
    have : 16 * va + vb ≤ 255 := by omega
    exact_mod_cast this
  · have h1 := hexVal_lt_16 hvc
    have h2 := hexVal_lt_16 hvd
    have : 16 * vc + vd ≤ 255 := by omega
    exact_mod_cast this
  · have h1 := hexVal_lt_16 hve
    have h2 := hexVal_lt_16 hvf
    have : 16 * ve + vf ≤ 255 := by omega
    exact_mod_cast this

/-- C2, counterexample: the five-character (hence malformed) input `"abcde"`
does not raise — `hex_to_rgb` happily returns `(0xab, 0xcd, 0xe)`, the third
slice being the single character `'e'`.  The claim that every wrong-length
input deterministically raises a `ValueError` is therefore false. -/
theorem C2_hex_resolver_counterexample :
    "abcde".data.length ≠ 6 ∧ hex_to_rgb "abcde" = some (171, 205, 14) := by
  constructor
  · decide
  · decide

/-- C2 (amended): every valid 6-hex-digit string resolves to a triple with
components in `[0, 255]`; an input whose `'#'`-stripped form has at most four
characters raises a `ValueError` (its third slice is empty); but wrong length
alone does not force an error (see the counterexample). -/
theorem C2_hex_resolver_amended {s t : String} (hv : ValidHex6 s)
    (hshort : (t.data.dropWhile (· = '#')).length ≤ 4) :
    (∃ r g b : ℤ, hex_to_rgb s = some (r, g, b) ∧
      inRange255 r ∧ inRange255 g ∧ inRange255 b) ∧
    hex_to_rgb t = none := by
  refine ⟨hex_to_rgb_of_validHex6 hv, ?_⟩
  unfold hex_to_rgb
  exact hexTripleParse_none_of_short hshort

/-- C2, witness: instantiating the amended claim at `"00ff07"` and `"#abc"`. -/
theorem C2_hex_resolver_witness :
    (∃ r g b : ℤ, hex_to_rgb "00ff07" = some (r, g, b) ∧
      inRange255 r ∧ inRange255 g ∧ inRange255 b) ∧
    hex_to_rgb "#abc" = none :=
  C2_hex_resolver_amended (by constructor <;> decide) (by decide)

/-! ## Claim C10: the `'#'` prefix never changes the result -/

/-- C10: `hex_to_rgb` strips all leading `'#'` characters before parsing, so
prefixing any input with `'#'` (once or twice) never changes the result — in
particular for every valid 6-character hex string. -/
theorem C10_hash_prefix_invariant (s : String) :
    hex_to_rgb ("#" ++ s) = hex_to_rgb s ∧
    hex_to_rgb ("##" ++ s) = hex_to_rgb s := by
  have h1 : ("#" ++ s).data = '#' :: s.data := by
    rw [String.data_append]; rfl
  have h2 : ("##" ++ s).data = '#' :: '#' :: s.data := by
    rw [String.data_append]; rfl
  unfold hex_to_rgb
  rw [h1, h2]
  constructor <;> simp [List.dropWhile]

/-! ## Claim C3: endpoints, rounding and monotonicity of `interpolate_color` -/

theorem interpChan_zero (a b : ℤ) : interpChan a b 0 = a := by
  unfold interpChan
  rw [show (a : ℚ) + ((b : ℚ) - a) * 0 = (a : ℚ) by ring, pyInt_intCast]

theorem interpChan_one (a b : ℤ) : interpChan a b 1 = b := by
  unfold interpChan
  rw [show (a : ℚ) + ((b : ℚ) - a) * 1 = (b : ℚ) by ring, pyInt_intCast]

theorem interp_val_nonneg {a b : ℤ} (ha : 0 ≤ a) (hb : 0 ≤ b) {t : ℚ}
    (ht0 : 0 ≤ t) (ht1 : t ≤ 1) : 0 ≤ (a : ℚ) + ((b : ℚ) - a) * t := by
  have ha' : (0 : ℚ) ≤ (a : ℚ) := by exact_mod_cast ha
  have hb' : (0 : ℚ) ≤ (b : ℚ) := by exact_mod_cast hb
  nlinarith

/-- On channels in range, the interpolated channel is nondecreasing in `t`
when `a ≤ b`. -/
theorem interpChan_mono {a b : ℤ} (ha : 0 ≤ a) (hb : 0 ≤ b) {t t' : ℚ}
    (ht0 : 0 ≤ t) (htt : t ≤ t') (ht1 : t' ≤ 1) (hab : a ≤ b) :
    interpChan a b t ≤ interpChan a b t' := by
  unfold interpChan
  rw [pyInt_eq_floor (interp_val_nonneg ha hb ht0 (htt.trans ht1)),
    pyInt_eq_floor (interp_val_nonneg ha hb (ht0.trans htt) ht1)]
  apply Int.floor_le_floor
  have hab' : (a : ℚ) ≤ (b : ℚ) := by exact_mod_cast hab
  nlinarith

/-- On channels in range, the interpolated channel is nonincreasing in `t`
when `b ≤ a`. -/
theorem interpChan_anti {a b : ℤ} (ha : 0 ≤ a) (hb : 0 ≤ b) {t t' : ℚ}
    (ht0 : 0 ≤ t) (htt : t ≤ t') (ht1 : t' ≤ 1) (hba : b ≤ a) :
    interpChan a b t' ≤ interpChan a b t := by
  unfold interpChan
  rw [pyInt_eq_floor (interp_val_nonneg ha hb ht0 (htt.trans ht1)),
    pyInt_eq_floor (interp_val_nonneg ha hb (ht0.trans htt) ht1)]
  apply Int.floor_le_floor
  have hba' : (b : ℚ) ≤ (a : ℚ) := by exact_mod_cast hba
  nlinarith

/-- C3: for colours with components in `[0, 255]` and `t ∈ [0, 1]`,
`interpolate_color` is the component-wise linear interpolation rounded toward
zero, equals `color1` at `t = 0` and `color2` at `t = 1`, and each channel is
monotone in `t`: nondecreasing when the second endpoint's channel is at least
the first's, nonincreasing otherwise. -/
theorem C3_interpolate_endpoints_monotone (c1 c2 : RGB)
    (h1 : inRangeRGB c1) (h2 : inRangeRGB c2) :
    interpolate_color c1 c2 0 = c1 ∧
    interpolate_color c1 c2 1 = c2 ∧
    (∀ t : ℚ, interpolate_color c1 c2 t =
      (pyInt ((c1.1 : ℚ) + ((c2.1 : ℚ) - c1.1) * t),
       pyInt ((c1.2.1 : ℚ) + ((c2.2.1 : ℚ) - c1.2.1) * t),
       pyInt ((c1.2.2 : ℚ) + ((c2.2.2 : ℚ) - c1.2.2) * t))) ∧
    (∀ t t' : ℚ, 0 ≤ t → t ≤ t' → t' ≤ 1 →
      ((c1.1 ≤ c2.1 → interpChan c1.1 c2.1 t ≤ interpChan c1.1 c2.1 t') ∧
       (c2.1 ≤ c1.1 → interpChan c1.1 c2.1 t' ≤ interpChan c1.1 c2.1 t)) ∧
      ((c1.2.1 ≤ c2.2.1 → interpChan c1.2.1 c2.2.1 t ≤ interpChan c1.2.1 c2.2.1 t') ∧
       (c2.2.1 ≤ c1.2.1 → interpChan c1.2.1 c2.2.1 t' ≤ interpChan c1.2.1 c2.2.1 t)) ∧
      ((c1.2.2 ≤ c2.2.2 → interpChan c1.2.2 c2.2.2 t ≤ interpChan c1.2.2 c2.2.2 t') ∧
       (c2.2.2 ≤ c1.2.2 → interpChan c1.2.2 c2.2.2 t' ≤ interpChan c1.2.2 c2.2.2 t))) := by
  obtain ⟨⟨hr10, _⟩, ⟨hg10, _⟩, ⟨hb10, _⟩⟩ := h1
  obtain ⟨⟨hr20, _⟩, ⟨hg20, _⟩, ⟨hb20, _⟩⟩ := h2
  refine ⟨?_, ?_, fun t => rfl, ?_⟩
  · show (interpChan c1.1 c2.1 0, interpChan c1.2.1 c2.2.1 0,
      interpChan c1.2.2 c2.2.2 0) = c1
    rw [interpChan_zero, interpChan_zero, interpChan_zero]
  · show (interpChan c1.1 c2.1 1, interpChan c1.2.1 c2.2.1 1,
      interpChan c1.2.2 c2.2.2 1) = c2
    rw [interpChan_one, interpChan_one, interpChan_one]
  · intro t t' ht0 htt ht1
    exact ⟨⟨interpChan_mono hr10 hr20 ht0 htt ht1,
        interpChan_anti hr10 hr20 ht0 htt ht1⟩,
      ⟨interpChan_mono hg10 hg20 ht0 htt ht1,
        interpChan_anti hg10 hg20 ht0 htt ht1⟩,
      ⟨interpChan_mono hb10 hb20 ht0 htt ht1,
        interpChan_anti hb10 hb20 ht0 htt ht1⟩⟩

/-- C3, witness: the endpoint property instantiated at black and white. -/
theorem C3_interpolate_witness :
    interpolate_color (0, 0, 0) (255, 255, 255) 0 = (0, 0, 0) :=
  (C3_interpolate_endpoints_monotone (0, 0, 0) (255, 255, 255)
    (by refine ⟨⟨?_, ?_⟩, ⟨?_, ?_⟩, ⟨?_, ?_⟩⟩ <;> decide)
    (by refine ⟨⟨?_, ?_⟩, ⟨?_, ?_⟩, ⟨?_, ?_⟩⟩ <;> decide)).1

/-! ## The gradient renderers (generate_png_backgrounds.py lines 18-106)

`math.sqrt` is abstracted as a parameter `s : ℚ → ℚ` applied to the squared
distance; the only property of it the claims use is `sqrt 0 = 0`, which is
exact in floating point too.  For the linear gradient, `math.cos`/`math.sin`
of the angle are passed in as rationals; at the angle 0° used by claim C5
they are exactly 1 and 0 in floating point as well. -/

/-- Colour selection of `create_radial_gradient` as a function of the
normalised distance (the body of the nested loop, lines 39-55). -/
def gradientColorRadial (colors : List RGB) (nd : ℚ) : RGB :=
  if 3 ≤ colors.length then
    if nd < 2/5 then
      interpolate_color (colors.getD 0 (0, 0, 0)) (colors.getD 1 (0, 0, 0))
        (nd / (2/5))
    else if nd < 7/10 then
      interpolate_color (colors.getD 1 (0, 0, 0)) (colors.getD 2 (0, 0, 0))
        ((nd - 2/5) / (3/10))
    else
      interpolate_color (colors.getD 2 (0, 0, 0)) (colors.getD 0 (0, 0, 0))
        ((nd - 7/10) / (3/10))
  else
    interpolate_color (colors.getD 0 (0, 0, 0)) (colors.getLastD (0, 0, 0)) nd

/-- `create_radial_gradient(width, height, colors, center)`: every pixel's
colour is a function of its Euclidean distance from the centre pixel,
normalised by half the canvas diagonal and clamped to 1. -/
def create_radial_gradient (s : ℚ → ℚ) (width height : ℕ) (colors : List RGB)
    (center : ℚ × ℚ) : List (List RGB) :=
  (List.range height).map fun (y : ℕ) =>
    (List.range width).map fun (x : ℕ) =>
      gradientColorRadial colors
        (min (s (((x : ℚ) - (pyInt (center.1 * width) : ℚ)) ^ 2 +
                 ((y : ℚ) - (pyInt (center.2 * height) : ℚ)) ^ 2) /
              (s ((width : ℚ) ^ 2 + (height : ℚ) ^ 2) / 2)) 1)

/-- Colour selection of `create_linear_gradient` as a function of the clamped
position along the gradient line (lines 93-102). -/
def gradientColorLinear (colors : List RGB) (pos : ℚ) : RGB :=
  if 3 ≤ colors.length then
    if pos < 1/2 then
      interpolate_color (colors.getD 0 (0, 0, 0)) (colors.getD 1 (0, 0, 0))
        (pos * 2)
    else
      interpolate_color (colors.getD 1 (0, 0, 0)) (colors.getD 2 (0, 0, 0))
        ((pos - 1/2) * 2)
  else
    interpolate_color (colors.getD 0 (0, 0, 0)) (colors.getLastD (0, 0, 0)) pos

/-- `create_linear_gradient(width, height, colors, angle)`, with
`cos(radians(angle))` and `sin(radians(angle))` passed in as rationals. -/
def create_linear_gradient (width height : ℕ) (colors : List RGB)
    (cosAngle sinAngle : ℚ) : List (List RGB) :=
  (List.range height).map fun (y : ℕ) =>
    (List.range width).map fun (x : ℕ) =>
      gradientColorLinear colors
        (max 0 (min 1 (((x : ℚ) * cosAngle + (y : ℚ) * sinAngle) /
          (|(width : ℚ) * cosAngle| + |(height : ℚ) * sinAngle|))))

/-- Reading one pixel of a canvas (out-of-range reads return black; claims
only ever read in range). -/
def getPixel (cv : List (List RGB)) (x y : ℕ) : RGB := (cv.getD y []).getD x (0, 0, 0)

/-- Pixel lookup in a canvas built by a double range comprehension. -/
theorem getPixel_grid {w h : ℕ} (f : ℕ → ℕ → RGB) {x y : ℕ}
    (hx : x < w) (hy : y < h) :
    getPixel ((List.range h).map fun y => (List.range w).map fun x => f x y) x y
      = f x y := by
  have hrow : ((List.range h).map fun y => (List.range w).map fun x => f x y).getD y []
      = (List.range w).map fun x => f x y := by
    rw [List.getD_eq_getElem?_getD, List.getElem?_map, List.getElem?_range hy]
    rfl
  have hcol : ((List.range w).map fun x => f x y).getD x (0, 0, 0) = f x y := by
    rw [List.getD_eq_getElem?_getD, List.getElem?_map, List.getElem?_range hx]
    rfl
  unfold getPixel
  rw [hrow, hcol]

example :
    getPixel (create_linear_gradient 4 4 [(0, 0, 0), (255, 255, 255)] 1 0) 1 2
      = (63, 63, 63) := by decide

/-! ## Claim C4: structure of the radial gradient -/

/-- At normalised distance 0 the radial colour is exactly `colors[0]`. -/
theorem gradientColorRadial_zero {colors : List RGB} (h : 3 ≤ colors.length) :
    gradientColorRadial colors 0 = colors.getD 0 (0, 0, 0) := by
  unfold gradientColorRadial
  rw [if_pos h, if_pos (by norm_num)]
  rw [show (0 : ℚ) / (2/5) = 0 by norm_num]
  show (interpChan _ _ 0, interpChan _ _ 0, interpChan _ _ 0) = _
  rw [interpChan_zero, interpChan_zero, interpChan_zero]

/-- C4: with a palette of at least three colours, each pixel of the radial
gradient is coloured according to its Euclidean distance from the centre
pixel, normalised by half the canvas diagonal and clamped to 1; the bands
`[0, 0.4)`, `[0.4, 0.7)` and `[0.7, 1]` blend `color0→color1`,
`color1→color2` and `color2→color0` respectively, and the pixel at the
declared centre position is exactly `color0`. -/
theorem C4_radial_gradient (s : ℚ → ℚ) (w h : ℕ) (colors : List RGB)
    (hs0 : s 0 = 0) (hlen : 3 ≤ colors.length) (hw : 1 ≤ w) (hh : 1 ≤ h) :
    (∀ x y : ℕ, x < w → y < h →
      getPixel (create_radial_gradient s w h colors (1/2, 1/2)) x y
        = gradientColorRadial colors
            (min (s (((x : ℚ) - (pyInt ((1/2 : ℚ) * w) : ℚ)) ^ 2 +
                     ((y : ℚ) - (pyInt ((1/2 : ℚ) * h) : ℚ)) ^ 2) /
                  (s ((w : ℚ) ^ 2 + (h : ℚ) ^ 2) / 2)) 1)) ∧
    (∀ nd : ℚ,
      (nd < 2/5 →
        gradientColorRadial colors nd =
          interpolate_color (colors.getD 0 (0, 0, 0)) (colors.getD 1 (0, 0, 0))
            (nd / (2/5))) ∧
      (2/5 ≤ nd → nd < 7/10 →
        gradientColorRadial colors nd =
          interpolate_color (colors.getD 1 (0, 0, 0)) (colors.getD 2 (0, 0, 0))
            ((nd - 2/5) / (3/10))) ∧
      (7/10 ≤ nd →
        gradientColorRadial colors nd =
          interpolate_color (colors.getD 2 (0, 0, 0)) (colors.getD 0 (0, 0, 0))
            ((nd - 7/10) / (3/10)))) ∧
    getPixel (create_radial_gradient s w h colors (1/2, 1/2))
        (pyInt ((1/2 : ℚ) * w)).toNat (pyInt ((1/2 : ℚ) * h)).toNat
      = colors.getD 0 (0, 0, 0) := by
  have hcx0 : (0 : ℚ) ≤ (1/2 : ℚ) * w := by positivity
  have hcy0 : (0 : ℚ) ≤ (1/2 : ℚ) * h := by positivity
  have hcxw : (pyInt ((1/2 : ℚ) * w)).toNat < w := by
    rw [pyInt_eq_floor hcx0]
    have hfl : ⌊(1/2 : ℚ) * w⌋ < (w : ℤ) := by
      apply Int.floor_lt.mpr
      push_cast
      nlinarith [show (1 : ℚ) ≤ (w : ℚ) by exact_mod_cast hw]
    omega
  have hcyh : (pyInt ((1/2 : ℚ) * h)).toNat < h := by
    rw [pyInt_eq_floor hcy0]
    have hfl : ⌊(1/2 : ℚ) * h⌋ < (h : ℤ) := by
      apply Int.floor_lt.mpr
      push_cast
      nlinarith [show (1 : ℚ) ≤ (h : ℚ) by exact_mod_cast hh]
    omega
  have hgrid : ∀ x y : ℕ, x < w → y < h →
      getPixel (create_radial_gradient s w h colors (1/2, 1/2)) x y
        = gradientColorRadial colors
            (min (s (((x : ℚ) - (pyInt ((1/2 : ℚ) * w) : ℚ)) ^ 2 +
                     ((y : ℚ) - (pyInt ((1/2 : ℚ) * h) : ℚ)) ^ 2) /
                  (s ((w : ℚ) ^ 2 + (h : ℚ) ^ 2) / 2)) 1) := by
    intro x y hx hy
    unfold create_radial_gradient
    exact getPixel_grid _ hx hy
  refine ⟨hgrid, ?_, ?_⟩
  · intro nd
    refine ⟨?_, ?_, ?_⟩
    · intro hnd
      unfold gradientColorRadial
      rw [if_pos hlen, if_pos hnd]
    · intro hnd1 hnd2
      unfold gradientColorRadial
      rw [if_pos hlen, if_neg (by linarith), if_pos hnd2]
    · intro hnd
      unfold gradientColorRadial
      rw [if_pos hlen, if_neg (by linarith), if_neg (by linarith)]
  · rw [hgrid _ _ hcxw hcyh]
    have hx0 : ((pyInt ((1/2 : ℚ) * w)).toNat : ℚ) = ((pyInt ((1/2 : ℚ) * w) : ℤ) : ℚ) := by
      rw [pyInt_eq_floor hcx0]
      have : (0 : ℤ) ≤ ⌊(1/2 : ℚ) * w⌋ := Int.floor_nonneg.mpr hcx0
      exact_mod_cast Int.toNat_of_nonneg this
    have hy0 : ((pyInt ((1/2 : ℚ) * h)).toNat : ℚ) = ((pyInt ((1/2 : ℚ) * h) : ℤ) : ℚ) := by
      rw [pyInt_eq_floor hcy0]
      have : (0 : ℤ) ≤ ⌊(1/2 : ℚ) * h⌋ := Int.floor_nonneg.mpr hcy0
      exact_mod_cast Int.toNat_of_nonneg this
    rw [hx0, hy0]
    rw [show ((pyInt ((1/2 : ℚ) * w) : ℤ) : ℚ) - ((pyInt ((1/2 : ℚ) * w) : ℤ) : ℚ) = 0 by ring]
    rw [show ((pyInt ((1/2 : ℚ) * h) : ℤ) : ℚ) - ((pyInt ((1/2 : ℚ) * h) : ℤ) : ℚ) = 0 by ring]
    rw [show (0 : ℚ) ^ 2 + (0 : ℚ) ^ 2 = 0 by ring, hs0]
    rw [zero_div, min_eq_left (by norm_num)]
    exact gradientColorRadial_zero hlen

/-- C4, witness: the centre pixel of a concrete 2×2 radial gradient over a
three-colour palette is exactly the first colour. -/
theorem C4_radial_gradient_witness :
    getPixel (create_radial_gradient (fun _ => 0) 2 2
        [(1, 2, 3), (4, 5, 6), (7, 8, 9)] (1/2, 1/2))
      (pyInt ((1/2 : ℚ) * 2)).toNat (pyInt ((1/2 : ℚ) * 2)).toNat
      = (1, 2, 3) :=
  (C4_radial_gradient (fun _ => 0) 2 2 [(1, 2, 3), (4, 5, 6), (7, 8, 9)]
    rfl (by decide) (by decide) (by decide)).2.2

/-! ## Claim C5: the 4×4 two-colour linear gradient at angle 0° -/

/-- Per-pixel brightness. -/
def brightness (c : RGB) : ℤ := c.1 + c.2.1 + c.2.2

/-- `L¹` distance between two colours. -/
def distL1 (c d : RGB) : ℤ := |c.1 - d.1| + |c.2.1 - d.2.1| + |c.2.2 - d.2.2|

/-- The scenario image: 4×4, colours black and white, angle 0°
(`cos 0 = 1`, `sin 0 = 0`, both exact). -/
def linearScenario : List (List RGB) :=
  create_linear_gradient 4 4 [(0, 0, 0), (255, 255, 255)] 1 0

/-- C5: in the 4×4 black-to-white linear gradient at angle 0°, the leftmost
column is strictly closer to black than any other column, the rightmost
column strictly closer to white than any other column, and brightness is
nondecreasing from left to right within each row. -/
theorem C5_linear_gradient_scenario :
    (∀ y ∈ List.range 4, ∀ x ∈ List.range 4, 0 < x →
      distL1 (getPixel linearScenario 0 y) (0, 0, 0)
        < distL1 (getPixel linearScenario x y) (0, 0, 0)) ∧
    (∀ y ∈ List.range 4, ∀ x ∈ List.range 4, x < 3 →
      distL1 (getPixel linearScenario 3 y) (255, 255, 255)
        < distL1 (getPixel linearScenario x y) (255, 255, 255)) ∧
    (∀ y ∈ List.range 4, ∀ x1 ∈ List.range 4, ∀ x2 ∈ List.range 4, x1 ≤ x2 →
      brightness (getPixel linearScenario x1 y)
        ≤ brightness (getPixel linearScenario x2 y)) := by
  decide

/-! ## Canvas representation and clipped drawing primitives

A PIL RGB image is a list of `height` rows of `width` pixels.  `ImageDraw`
primitives silently clip at the canvas border; the embedded operations only
ever map over existing pixels, so out-of-bounds coordinates are skipped by
construction. -/

/-- The pixel grid of a PIL image. -/
abbrev Canvas := List (List RGB)

/-- Map with the element index, starting from `i`. -/
def mapIdxFrom (f : ℕ → α → α) : ℕ → List α → List α
  | _, [] => []
  | i, a :: l => f i a :: mapIdxFrom f (i + 1) l

theorem length_mapIdxFrom (f : ℕ → α → α) (i : ℕ) (l : List α) :
    (mapIdxFrom f i l).length = l.length := by
  induction l generalizing i with
  | nil => rfl
  | cons a l ih => simp [mapIdxFrom, ih]

theorem mem_mapIdxFrom {f : ℕ → α → α} : ∀ {i : ℕ} {l : List α} {a : α},
    a ∈ mapIdxFrom f i l → ∃ j b, b ∈ l ∧ a = f j b := by
  intro i l
  induction l generalizing i with
  | nil => intro a h; cases h
  | cons x l ih =>
    intro a h
    rw [mapIdxFrom] at h
    rcases List.mem_cons.mp h with h | h
    · exact ⟨i, x, List.mem_cons_self x l, h⟩
    · obtain ⟨j, b, hb, rfl⟩ := ih h
      exact ⟨j, b, List.mem_cons_of_mem x hb, rfl⟩

/-- `Image.new('RGB', (w, h), bg)`. -/
def mkCanvas (w h : ℕ) (c : RGB) : Canvas := List.replicate h (List.replicate w c)

/-- PIL `draw.rectangle([x0, y0, x1, y1], fill=c)`: fill the inclusive box,
silently clipped to the canvas. -/
def drawRect (cv : Canvas) (x0 y0 x1 y1 : ℤ) (c : RGB) : Canvas :=
  mapIdxFrom (fun y row =>
    if y0 ≤ (y : ℤ) ∧ (y : ℤ) ≤ y1 then
      mapIdxFrom (fun x p => if x0 ≤ (x : ℤ) ∧ (x : ℤ) ≤ x1 then c else p) 0 row
    else row) 0 cv

/-- PIL `draw.point((x, y), fill=c)`: set one pixel, silently clipped. -/
def drawPoint (cv : Canvas) (x y : ℤ) (c : RGB) : Canvas :=
  mapIdxFrom (fun py row =>
    if (py : ℤ) = y then
      mapIdxFrom (fun px p => if (px : ℤ) = x then c else p) 0 row
    else row) 0 cv

/-- The canvas has exactly the declared dimensions. -/
def Dims (cv : Canvas) (w h : ℕ) : Prop :=
  cv.length = h ∧ ∀ row ∈ cv, row.length = w

theorem dims_mkCanvas (w h : ℕ) (c : RGB) : Dims (mkCanvas w h c) w h := by
  constructor
  · simp [mkCanvas]
  · intro row hrow
    rw [List.eq_of_mem_replicate hrow]
    simp

theorem dims_mapIdxFrom {w h : ℕ} {cv : Canvas} (hd : Dims cv w h)
    {f : ℕ → List RGB → List RGB} (hf : ∀ i r, (f i r).length = r.length)
    (i : ℕ) : Dims (mapIdxFrom f i cv) w h := by
  obtain ⟨hlen, hrows⟩ := hd
  constructor
  · rw [length_mapIdxFrom]; exact hlen
  · intro row hrow
    obtain ⟨j, b, hb, rfl⟩ := mem_mapIdxFrom hrow
    rw [hf j b]
    exact hrows b hb

theorem dims_drawRect {w h : ℕ} {cv : Canvas} (hd : Dims cv w h)
    (x0 y0 x1 y1 : ℤ) (c : RGB) : Dims (drawRect cv x0 y0 x1 y1 c) w h := by
  apply dims_mapIdxFrom hd
  intro i r
  split
  · rw [length_mapIdxFrom]
  · rfl

theorem dims_drawPoint {w h : ℕ} {cv : Canvas} (hd : Dims cv w h)
    (x y : ℤ) (c : RGB) : Dims (drawPoint cv x y c) w h := by
  apply dims_mapIdxFrom hd
  intro i r
  split
  · rw [length_mapIdxFrom]
  · rfl

/-- Fold preservation of an invariant. -/
theorem foldl_preserve {P : β → Prop} {step : β → α → β}
    (hstep : ∀ acc x, P acc → P (step acc x)) :
    ∀ (l : List α) (init : β), P init → P (l.foldl step init) := by
  intro l
  induction l with
  | nil => intro init h; exact h
  | cons a l ih => intro init h; exact ih _ (hstep init a h)

/-- Every pixel of the canvas satisfies `S`. -/
def PixIn (cv : Canvas) (S : RGB → Prop) : Prop :=
  ∀ row ∈ cv, ∀ p ∈ row, S p

theorem pixIn_mkCanvas {S : RGB → Prop} {c : RGB} (hc : S c) (w h : ℕ) :
    PixIn (mkCanvas w h c) S := by
  intro row hrow p hp
  rw [List.eq_of_mem_replicate hrow] at hp
  rw [List.eq_of_mem_replicate hp]
  exact hc

theorem pixIn_mapIdxFrom {S : RGB → Prop} {cv : Canvas} (hcv : PixIn cv S)
    {f : ℕ → List RGB → List RGB}
    (hf : ∀ i r, (∀ p ∈ r, S p) → ∀ p ∈ f i r, S p) (i : ℕ) :
    PixIn (mapIdxFrom f i cv) S := by
  intro row hrow p hp
  obtain ⟨j, b, hb, rfl⟩ := mem_mapIdxFrom hrow
  exact hf j b (hcv b hb) p hp

theorem pixIn_inner_mapIdxFrom {S : RGB → Prop} {r : List RGB}
    (hr : ∀ p ∈ r, S p) {g : ℕ → RGB → RGB}
    (hg : ∀ j p, S p → S (g j p)) (i : ℕ) : ∀ p ∈ mapIdxFrom g i r, S p := by
  intro p hp
  obtain ⟨j, b, hb, rfl⟩ := mem_mapIdxFrom hp
  exact hg j b (hr b hb)

theorem pixIn_drawRect {S : RGB → Prop} {cv : Canvas} (hcv : PixIn cv S)
    {c : RGB} (hc : S c) (x0 y0 x1 y1 : ℤ) :
    PixIn (drawRect cv x0 y0 x1 y1 c) S := by
  apply pixIn_mapIdxFrom hcv
  intro i r hr
  split
  · exact pixIn_inner_mapIdxFrom hr (fun j p hp => by split <;> [exact hc; exact hp]) 0
  · exact hr

theorem pixIn_drawPoint {S : RGB → Prop} {cv : Canvas} (hcv : PixIn cv S)
    {c : RGB} (hc : S c) (x y : ℤ) : PixIn (drawPoint cv x y c) S := by
  apply pixIn_mapIdxFrom hcv
  intro i r hr
  split
  · exact pixIn_inner_mapIdxFrom hr (fun j p hp => by split <;> [exact hc; exact hp]) 0
  · exact hr

/-! ## The pseudo-random source

Python's `random` module is seeded once per process (`random.seed(42)`) and
mutated by every draw; the state is threaded explicitly here.  The concrete
generator is a linear congruential generator standing in for the Mersenne
twister; no proved property depends on the values of the stream. -/

/-- Explicit state of the global pseudo-random generator. -/
structure Rng where
  state : ℕ
  deriving DecidableEq

/-- Advance the generator. -/
def Rng.next (g : Rng) : ℕ × Rng :=
  let s := (g.state * 1103515245 + 12345) % 2147483648
  (s, ⟨s⟩)

/-- `random.randint(a, b)`: a value in the inclusive range `[a, b]`. -/
def Rng.randint (g : Rng) (a b : ℤ) : ℤ × Rng :=
  let p := g.next
  (a + (p.1 : ℤ) % (b - a + 1), p.2)

/-- `random.choice(seq)`. -/
def Rng.choice (g : Rng) (l : List α) (d : α) : α × Rng :=
  let p := g.next
  (l.getD (p.1 % l.length) d, p.2)

/-- `random.random()`: a rational in `[0, 1)`. -/
def Rng.randomQ (g : Rng) : ℚ × Rng :=
  let p := g.next
  (((p.1 % 1000 : ℕ) : ℚ) / 1000, p.2)

/-- Python `range(a, b, step)` for a positive step. -/
def pyRangeLen (a b step : ℤ) : ℕ :=
  if 0 < step ∧ a < b then ((b - a - 1).fdiv step + 1).toNat else 0

/-- The elements of Python `range(a, b, step)`. -/
def pyRange (a b step : ℤ) : List ℤ :=
  (List.range (pyRangeLen a b step)).map (fun i => a + step * (i : ℤ))

example : pyRange 0 3 18 = [0] := by decide
example : pyRange 0 37 18 = [0, 18, 36] := by decide
example : pyRange (-5) 20 20 = [-5, 15] := by decide

/-! ## The `matrix` theme renderer of generate_epic_backgrounds.py (lines 12-56)

Loop structure mirrored one-to-one; the local variables of the Python body
become the successive `let` bindings.  `col_length // 20` can be 0 in Python
only for canvases shorter than 60 pixels (where the script would raise a
`ZeroDivisionError`); the `ℚ` embedding totalises that division as 0, and
every concrete instance used below keeps `h ≥ 60`. -/

namespace Epic

/-- `matrix_chars` (line 25); only consumed by `random.choice`, never
rendered as glyph outlines. -/
def matrixChars : List Char :=
  "0123456789ABCDEFGHIJKLMNOPQRSTUVWXYZアイウエオカキクケコサシスセソタチツテトナニヌネノハヒフヘホマミムメモヤユヨラリルレロワヲン".data

/-- The flat background colour (lines 14-19). -/
def bgColor (isDark : Bool) : RGB :=
  if isDark then (0, 0, 0) else (250, 250, 250)

/-- The four glyph colours, bright to dim (lines 16 and 19). -/
def textColors (isDark : Bool) : List RGB :=
  if isDark then [(0, 255, 0), (0, 200, 0), (0, 150, 0), (0, 100, 0)]
  else [(0, 100, 0), (0, 80, 0), (0, 60, 0), (0, 40, 0)]

/-- One of the three decorative pixels drawn around a glyph (lines 50-54):
guarded by an explicit bounds check in the source. -/
def noiseStep (w h : ℕ) (col y : ℤ) (color : RGB) (cg : Canvas × Rng)
    (_ : ℕ) : Canvas × Rng :=
  let (cv, g) := cg
  let (dx, g) := g.randint (-2) 16
  let (dy, g) := g.randint (-2) 18
  let px := col + dx
  let py := y + dy
  if 0 ≤ px ∧ px < (w : ℤ) ∧ 0 ≤ py ∧ py < (h : ℤ) then
    (drawPoint cv px py color, g)
  else (cv, g)

/-- The body of `for i, y in enumerate(range(start_y, start_y + col_length, 20))`
(lines 35-54). -/
def glyphStep (w h : ℕ) (isDark : Bool) (col colLength : ℤ)
    (cg : Canvas × Rng) (iy : ℕ × ℤ) : Canvas × Rng :=
  let (cv, g) := cg
  let (i, y) := iy
  if 0 ≤ y ∧ y < (h : ℤ) then
    let p := g.choice matrixChars ' '
    let g := p.2
    let intensity : ℚ := min 1 (((i : ℚ) + 1) / ((colLength.fdiv 20 : ℤ) : ℚ))
    let colorIndex : ℤ := min 3 (pyInt (intensity * 4))
    let color := (textColors isDark).getD colorIndex.toNat (0, 0, 0)
    let cv := drawRect cv (col + 2) y (col + 14) (y + 16) color
    let (r, g) := g.randomQ
    if r < 3/10 then (List.range 3).foldl (noiseStep w h col y color) (cv, g)
    else (cv, g)
  else (cv, g)

/-- The body of `for col in range(0, width, 18)` (lines 29-54). -/
def colStep (w h : ℕ) (isDark : Bool) (cg : Canvas × Rng) (col : ℤ) :
    Canvas × Rng :=
  let (cv, g) := cg
  let (colLength, g) := g.randint ((h : ℤ).fdiv 3) (h : ℤ)
  let (startY, g) := g.randint ((-(h : ℤ)).fdiv 2) 0
  (pyRange startY (startY + colLength) 20).enum.foldl
    (glyphStep w h isDark col colLength) (cv, g)

/-- `create_matrix_background(width, height, is_dark)`. -/
def create_matrix_background (w h : ℕ) (isDark : Bool) (g : Rng) :
    Canvas × Rng :=
  (pyRange 0 (w : ℤ) 18).foldl (colStep w h isDark)
    (mkCanvas w h (bgColor isDark), g)

end Epic

/-! ## The `matrix` theme renderer of generate_unique_backgrounds.py
(lines 18-46) -/

namespace Uniq

/-- `chars` (line 24). -/
def chars : List Char :=
  "アイウエオカキクケコサシスセソタチツテトナニヌネノハヒフヘホマミムメモヤユヨラリルレロワヲン0123456789".data

/-- The flat background colour (line 20). -/
def bgColor (isDark : Bool) : RGB :=
  if isDark then (0, 0, 0) else (240, 240, 240)

/-- The body of `for y in range(start_y, start_y + col_height, 20)`
(lines 32-44). -/
def glyphStep (w h : ℕ) (isDark : Bool) (col colHeight startY : ℤ)
    (cg : Canvas × Rng) (y : ℤ) : Canvas × Rng :=
  let (cv, g) := cg
  if 0 ≤ y ∧ y < (h : ℤ) then
    let p := g.choice chars ' '
    let g := p.2
    let alpha : ℤ :=
      min 255 (max 50 (pyInt (255 * ((y : ℚ) - (startY : ℚ)) / (colHeight : ℚ))))
    let color : RGB :=
      if isDark then (0, alpha, 0) else (0, max 100 (255 - alpha), 0)
    (drawRect cv col y (col + 15) (y + 15) color, g)
  else (cv, g)

/-- The body of `for col in range(0, width, 20)` (lines 27-44). -/
def colStep (w h : ℕ) (isDark : Bool) (cg : Canvas × Rng) (col : ℤ) :
    Canvas × Rng :=
  let (cv, g) := cg
  let (colHeight, g) := g.randint ((h : ℤ).fdiv 4) (h : ℤ)
  let (startY, g) := g.randint ((-(h : ℤ)).fdiv 2) ((h : ℤ).fdiv 4)
  (pyRange startY (startY + colHeight) 20).foldl
    (glyphStep w h isDark col colHeight startY) (cv, g)

/-- `create_matrix_background(width, height, is_dark)` of the "unique"
variant. -/
def create_matrix_background (w h : ℕ) (isDark : Bool) (g : Rng) :
    Canvas × Rng :=
  (pyRange 0 (w : ℤ) 20).foldl (colStep w h isDark)
    (mkCanvas w h (bgColor isDark), g)

end Uniq

/-! ## Dimension preservation and pixel-closure lemmas -/

theorem getD_mem_of_lt {l : List α} {n : ℕ} (h : n < l.length) (d : α) :
    l.getD n d ∈ l := by
  rw [List.getD_eq_getElem l d h]
  exact List.getElem_mem h

namespace Epic

theorem noiseStep_dims {w h : ℕ} {col y : ℤ} {color : RGB} {cg : Canvas × Rng}
    (hd : Dims cg.1 w h) (n : ℕ) : Dims ((noiseStep w h col y color cg n).1) w h := by
  obtain ⟨cv, g⟩ := cg
  unfold noiseStep
  dsimp only
  split
  · exact dims_drawPoint hd _ _ _
  · exact hd

theorem glyphStep_dims {w h : ℕ} {m : Bool} {col colLength : ℤ}
    {cg : Canvas × Rng} (hd : Dims cg.1 w h) (iy : ℕ × ℤ) :
    Dims ((glyphStep w h m col colLength cg iy).1) w h := by
  obtain ⟨cv, g⟩ := cg
  obtain ⟨i, y⟩ := iy
  unfold glyphStep
  dsimp only
  split
  · split
    · apply foldl_preserve (P := fun cg : Canvas × Rng => Dims cg.1 w h)
      · intro acc x hP
        exact noiseStep_dims hP x
      · exact dims_drawRect hd _ _ _ _ _
    · exact dims_drawRect hd _ _ _ _ _
  · exact hd

theorem colStep_dims {w h : ℕ} {m : Bool} {cg : Canvas × Rng}
    (hd : Dims cg.1 w h) (col : ℤ) : Dims ((colStep w h m cg col).1) w h := by
  obtain ⟨cv, g⟩ := cg
  unfold colStep
  dsimp only
  apply foldl_preserve (P := fun cg : Canvas × Rng => Dims cg.1 w h)
  · intro acc x hP
    exact glyphStep_dims hP x
  · exact hd

theorem create_matrix_dims (w h : ℕ) (m : Bool) (g : Rng) :
    Dims (create_matrix_background w h m g).1 w h := by
  unfold create_matrix_background
  apply foldl_preserve (P := fun cg : Canvas × Rng => Dims cg.1 w h)
  · intro acc x hP
    exact colStep_dims hP x
  · exact dims_mkCanvas w h _

theorem textColors_length (m : Bool) : (textColors m).length = 4 := by
  cases m <;> rfl

/-- Every pixel the epic matrix renderer writes comes verbatim from the
four-colour glyph palette: the glyph rectangles and noise points are hard
overwrites, not blends with the canvas. -/
theorem pix_glyphStep {w h : ℕ} {m : Bool} {col colLength : ℤ}
    {cg : Canvas × Rng}
    (hp : PixIn cg.1 (fun p => p = bgColor m ∨ p ∈ textColors m)) (iy : ℕ × ℤ) :
    PixIn ((glyphStep w h m col colLength cg iy).1)
      (fun p => p = bgColor m ∨ p ∈ textColors m) := by
  obtain ⟨cv, g⟩ := cg
  obtain ⟨i, y⟩ := iy
  unfold glyphStep
  dsimp only
  have hcol : ((textColors m).getD
      (min 3 (pyInt (min 1 (((i : ℚ) + 1) / ((colLength.fdiv 20 : ℤ) : ℚ)) * 4))).toNat (0, 0, 0))
      ∈ textColors m := by
    apply getD_mem_of_lt
    rw [textColors_length]
    have h1 : (min 3 (pyInt (min 1 (((i : ℚ) + 1) / ((colLength.fdiv 20 : ℤ) : ℚ)) * 4))) ≤ 3 :=
      min_le_left _ _
    omega
  split
  · split
    · apply foldl_preserve
        (P := fun cg : Canvas × Rng => PixIn cg.1 (fun p => p = bgColor m ∨ p ∈ textColors m))
      · intro acc x hP
        obtain ⟨cv', g'⟩ := acc
        unfold noiseStep
        dsimp only
        split
        · exact pixIn_drawPoint hP (Or.inr hcol) _ _
        · exact hP
      · exact pixIn_drawRect hp (Or.inr hcol) _ _ _ _
    · exact pixIn_drawRect hp (Or.inr hcol) _ _ _ _
  · exact hp

theorem pix_create_matrix (w h : ℕ) (m : Bool) (g : Rng) :
    PixIn (create_matrix_background w h m g).1
      (fun p => p = bgColor m ∨ p ∈ textColors m) := by
  unfold create_matrix_background
  apply foldl_preserve
    (P := fun cg : Canvas × Rng => PixIn cg.1 (fun p => p = bgColor m ∨ p ∈ textColors m))
  · intro acc x hP
    obtain ⟨cv, g'⟩ := acc
    unfold colStep
    dsimp only
    apply foldl_preserve
      (P := fun cg : Canvas × Rng => PixIn cg.1 (fun p => p = bgColor m ∨ p ∈ textColors m))
    · intro acc' x' hP'
      exact pix_glyphStep hP' x'
    · exact hP
  · exact pixIn_mkCanvas (Or.inl rfl) w h

end Epic

namespace Uniq

theorem uniqGlyphStep_dims {w h : ℕ} {m : Bool} {col colHeight startY : ℤ}
    {cg : Canvas × Rng} (hd : Dims cg.1 w h) (y : ℤ) :
    Dims ((glyphStep w h m col colHeight startY cg y).1) w h := by
  obtain ⟨cv, g⟩ := cg
  unfold glyphStep
  dsimp only
  split
  · exact dims_drawRect hd _ _ _ _ _
  · exact hd

theorem uniqColStep_dims {w h : ℕ} {m : Bool} {cg : Canvas × Rng}
    (hd : Dims cg.1 w h) (col : ℤ) : Dims ((colStep w h m cg col).1) w h := by
  obtain ⟨cv, g⟩ := cg
  unfold colStep
  dsimp only
  apply foldl_preserve (P := fun cg : Canvas × Rng => Dims cg.1 w h)
  · intro acc x hP
    exact uniqGlyphStep_dims hP x
  · exact hd

theorem uniqCreate_matrix_dims (w h : ℕ) (m : Bool) (g : Rng) :
    Dims (create_matrix_background w h m g).1 w h := by
  unfold create_matrix_background
  apply foldl_preserve (P := fun cg : Canvas × Rng => Dims cg.1 w h)
  · intro acc x hP
    exact uniqColStep_dims hP x
  · exact dims_mkCanvas w h _

end Uniq

theorem dims_grid (w h : ℕ) (f : ℕ → ℕ → RGB) :
    Dims ((List.range h).map fun y => (List.range w).map fun x => f x y) w h := by
  constructor
  · simp
  · intro row hrow
    obtain ⟨y, hy, rfl⟩ := List.mem_map.mp hrow
    simp

theorem dims_radial (s : ℚ → ℚ) (w h : ℕ) (colors : List RGB) (c : ℚ × ℚ) :
    Dims (create_radial_gradient s w h colors c) w h := by
  unfold create_radial_gradient
  exact dims_grid w h _

theorem dims_linear (w h : ℕ) (colors : List RGB) (ca sa : ℚ) :
    Dims (create_linear_gradient w h colors ca sa) w h := by
  unfold create_linear_gradient
  exact dims_grid w h _

/-! ## Claim C1: determinism of rendering

The global `random` state is the only mutable input of a render; with it
threaded explicitly, every renderer is a pure function of
`(rng state, width, height, mode)`, so invocations started from equal
pseudo-random states agree byte for byte. -/

/-- C1: two render invocations started from the same pseudo-random state
produce identical rasters, for the randomised matrix renderers of both
generator scripts and (trivially, having no random input at all) for the
radial and linear gradient renderers. -/
theorem C1_render_determinism (w h : ℕ) (m : Bool) (g g' : Rng) (hg : g = g') :
    Epic.create_matrix_background w h m g = Epic.create_matrix_background w h m g' ∧
    Uniq.create_matrix_background w h m g = Uniq.create_matrix_background w h m g' ∧
    (∀ (s : ℚ → ℚ) (colors : List RGB) (c : ℚ × ℚ),
      create_radial_gradient s w h colors c = create_radial_gradient s w h colors c) ∧
    (∀ (colors : List RGB) (ca sa : ℚ),
      create_linear_gradient w h colors ca sa = create_linear_gradient w h colors ca sa) := by
  subst hg
  exact ⟨rfl, rfl, fun _ _ _ => rfl, fun _ _ _ => rfl⟩

/-- C1, witness: the determinism statement at the driver's seed 42 and a
concrete canvas. -/
theorem C1_render_determinism_witness :
    Epic.create_matrix_background 3 60 true ⟨42⟩
      = Epic.create_matrix_background 3 60 true ⟨42⟩ ∧
    Uniq.create_matrix_background 3 60 true ⟨42⟩
      = Uniq.create_matrix_background 3 60 true ⟨42⟩ ∧
    (∀ (s : ℚ → ℚ) (colors : List RGB) (c : ℚ × ℚ),
      create_radial_gradient s 3 60 colors c = create_radial_gradient s 3 60 colors c) ∧
    (∀ (colors : List RGB) (ca sa : ℚ),
      create_linear_gradient 3 60 colors ca sa = create_linear_gradient 3 60 colors ca sa) :=
  C1_render_determinism 3 60 true ⟨42⟩ ⟨42⟩ rfl

/-! ## Claim C7: bounds are respected, out-of-range drawing is clipped -/

/-- C7: the drawing primitives clip silently, so for every pseudo-random
state, canvas size and mode the finished raster has exactly the requested
height and every row exactly the requested width — no pixel outside
`[0,width) × [0,height)` is ever written, for the randomised matrix
renderers of both scripts and for the gradient renderers. -/
theorem C7_bounds_clipping (g : Rng) (w h : ℕ) (m : Bool) :
    Dims (Epic.create_matrix_background w h m g).1 w h ∧
    Dims (Uniq.create_matrix_background w h m g).1 w h ∧
    (∀ (s : ℚ → ℚ) (colors : List RGB) (c : ℚ × ℚ),
      Dims (create_radial_gradient s w h colors c) w h) ∧
    (∀ (colors : List RGB) (ca sa : ℚ),
      Dims (create_linear_gradient w h colors ca sa) w h) :=
  ⟨Epic.create_matrix_dims w h m g, Uniq.uniqCreate_matrix_dims w h m g,
    fun s colors c => dims_radial s w h colors c,
    fun colors ca sa => dims_linear w h colors ca sa⟩

/-! ## Claim C6: compositing of decorative primitives -/

/-- The compositing operator the specification prescribes for every
primitive: `final_pixel = background*(1-a) + primitive_color*a`, rounded the
way the scripts round colour arithmetic (`int`). -/
def specAlphaBlend (bg c : RGB) (a : ℚ) : RGB :=
  (pyInt ((bg.1 : ℚ) * (1 - a) + (c.1 : ℚ) * a),
   pyInt ((bg.2.1 : ℚ) * (1 - a) + (c.2.1 : ℚ) * a),
   pyInt ((bg.2.2 : ℚ) * (1 - a) + (c.2.2 : ℚ) * a))

/-- C6, counterexample: in the epic matrix renderer a glyph pixel of the
output equals the palette colour `(0, 100, 0)` at full opacity on the black
background — a value no blend `background*(1-a) + color*a` with `a < 1`
can produce.  Decorative primitives are therefore not always composited by
strict alpha blending; drawing is a hard overwrite. -/
theorem C6_composite_counterexample :
    getPixel (Epic.create_matrix_background 3 60 true ⟨1⟩).1 2 1 = (0, 100, 0) ∧
    (0, 100, 0) ∈ Epic.textColors true ∧
    ((0, 100, 0) : RGB) ≠ Epic.bgColor true ∧
    ∀ a : ℚ, 0 ≤ a → a < 1 →
      specAlphaBlend (Epic.bgColor true) (0, 100, 0) a ≠ (0, 100, 0) := by
  refine ⟨by decide, by decide, by decide, ?_⟩
  intro a ha0 ha1 heq
  have h2 := congrArg (fun c : RGB => c.2.1) heq
  simp only [specAlphaBlend] at h2
  have hbg : (Epic.bgColor true).2.1 = 0 := rfl
  rw [hbg] at h2
  rw [show ((0 : ℤ) : ℚ) * (1 - a) + ((100 : ℤ) : ℚ) * a = 100 * a by push_cast; ring] at h2
  rw [pyInt_eq_floor (by nlinarith)] at h2
  have h3 : (100 : ℚ) ≤ 100 * a := by
    have := h2 ▸ Int.floor_le (100 * a)
    exact_mod_cast this
  nlinarith

/-- C6 (amended): decorative primitives in the matrix renderer are
composited by unconditional overwrite with precomputed palette colours,
never by blending with the current canvas: every pixel of the output raster
is either the flat background colour or one of the four full-opacity glyph
colours. -/
theorem C6_composite_amended (g : Rng) (w h : ℕ) (m : Bool) (x y : ℕ)
    (hx : x < w) (hy : y < h) :
    getPixel (Epic.create_matrix_background w h m g).1 x y = Epic.bgColor m ∨
    getPixel (Epic.create_matrix_background w h m g).1 x y ∈ Epic.textColors m := by
  have hdims := Epic.create_matrix_dims w h m g
  have hpix := Epic.pix_create_matrix w h m g
  have hrow : (Epic.create_matrix_background w h m g).1.getD y []
      ∈ (Epic.create_matrix_background w h m g).1 :=
    getD_mem_of_lt (by rw [hdims.1]; exact hy) []
  have hlen : ((Epic.create_matrix_background w h m g).1.getD y []).length = w :=
    hdims.2 _ hrow
  have hmem : getPixel (Epic.create_matrix_background w h m g).1 x y
      ∈ (Epic.create_matrix_background w h m g).1.getD y [] :=
    getD_mem_of_lt (by rw [hlen]; exact hx) _
  exact hpix _ hrow _ hmem

/-- C6, witness: the amended claim at a concrete pixel. -/
theorem C6_composite_amended_witness :
    getPixel (Epic.create_matrix_background 3 60 true ⟨1⟩).1 0 0 = Epic.bgColor true ∨
    getPixel (Epic.create_matrix_background 3 60 true ⟨1⟩).1 0 0 ∈ Epic.textColors true :=
  C6_composite_amended ⟨1⟩ 3 60 true 0 0 (by decide) (by decide)

/-! ## The batch driver of generate_png_backgrounds.py (lines 108-215)

The per-theme loop body is embedded with the fallible operations explicit:
hex conversion can raise `ValueError` (modelled by `hex_to_rgb = none`) and
`Image.save` can raise `IOError` (modelled by the `emit` parameter returning
`.error`); the two rendering calls are total.  The driver's observable
output is the list of per-mode success/failure messages it prints, in
order, together with the final `total_generated` it reports at the end
(line 210).  `math.sqrt` and `cos/sin(radians(135))` (the default gradient
angle) enter as parameters exactly as in the renderers above. -/

/-- The value found under a theme's `'dark'`/`'light'` key in the
configuration document: an object wrapping the list under a `'colors'` key,
a direct list, or some other truthy value (lines 149-154). -/
inductive ModeCfg
  | wrapped (colors : List String)
  | direct (colors : List String)
  | other
  deriving DecidableEq

/-- Python truthiness of the config value (`if dark_data:`, line 147): a
wrapping dict is nonempty hence truthy, a direct list is truthy iff
nonempty.  An absent key yields the falsy `{}` via `.get('dark', {})` and is
modelled by `none` at the call site. -/
def truthyCfg : ModeCfg → Bool
  | .wrapped _ => true
  | .direct l => !l.isEmpty
  | .other => true

/-- Lines 149-154: extract the colour list from the config value. -/
def extractColors : ModeCfg → List String
  | .wrapped colors => colors
  | .direct colors => colors
  | .other => []

/-- One per-mode line of driver output: the success message of line 171/203
or the failure message of line 175/207. -/
structure LogEntry where
  theme : String
  mode : String
  success : Bool
  deriving DecidableEq

/-- The try-block body once the colours are converted (lines 160-172): save
the radial then the linear gradient; an `IOError` jumps to the except-branch
(lines 174-175). -/
def emitPair (sq : ℚ → ℚ) (c135 s135 : ℚ)
    (emit : String → Canvas → Except String Unit)
    (themeName modeName : String) (rgbColors : List RGB) : List LogEntry × ℕ :=
  match emit ("assets/backgrounds/" ++ themeName ++ "_" ++ modeName ++ "_radial.png")
      (create_radial_gradient sq 390 844 rgbColors (1/2, 1/2)) with
  | .error _ => ([⟨themeName, modeName, false⟩], 0)
  | .ok _ =>
    match emit ("assets/backgrounds/" ++ themeName ++ "_" ++ modeName ++ "_linear.png")
        (create_linear_gradient 390 844 rgbColors c135 s135) with
    | .error _ => ([⟨themeName, modeName, false⟩], 0)
    | .ok _ => ([⟨themeName, modeName, true⟩], 2)

/-- Lines 156-175: skip an empty colour list silently, otherwise convert the
first three hex colours (a `ValueError` jumps to the except-branch) and
emit both variants. -/
def processColors (sq : ℚ → ℚ) (c135 s135 : ℚ)
    (emit : String → Canvas → Except String Unit)
    (themeName modeName : String) (colors : List String) : List LogEntry × ℕ :=
  if colors.isEmpty then ([], 0)
  else
    match (colors.take 3).mapM hex_to_rgb with
    | none => ([⟨themeName, modeName, false⟩], 0)
    | some rgbColors => emitPair sq c135 s135 emit themeName modeName rgbColors

/-- Lines 145-175 (dark) and 177-207 (light): the handling of one
(theme, mode) pair. -/
def processMode (sq : ℚ → ℚ) (c135 s135 : ℚ)
    (emit : String → Canvas → Except String Unit)
    (themeName modeName : String) : Option ModeCfg → List LogEntry × ℕ
  | none => ([], 0)
  | some cfg =>
    if truthyCfg cfg then
      processColors sq c135 s135 emit themeName modeName (extractColors cfg)
    else ([], 0)

/-- One theme's configuration: its name and the optional dark/light entries. -/
abbrev ThemeCfg := String × (Option ModeCfg × Option ModeCfg)

/-- The body of `for theme_name, theme_colors in themes.items()`:
dark variant first, then light. -/
def processTheme (sq : ℚ → ℚ) (c135 s135 : ℚ)
    (emit : String → Canvas → Except String Unit) (t : ThemeCfg) :
    List LogEntry × ℕ :=
  let d := processMode sq c135 s135 emit t.1 "dark" t.2.1
  let l := processMode sq c135 s135 emit t.1 "light" t.2.2
  (d.1 ++ l.1, d.2 + l.2)

/-- The driver loop of `generate_theme_backgrounds` (lines 142-207): log
lines in print order and the final `total_generated` reported at line 210. -/
def runThemes (sq : ℚ → ℚ) (c135 s135 : ℚ)
    (emit : String → Canvas → Except String Unit) :
    List ThemeCfg → List LogEntry × ℕ
  | [] => ([], 0)
  | t :: ts =>
    let r := processTheme sq c135 s135 emit t
    let rest := runThemes sq c135 s135 emit ts
    (r.1 ++ rest.1, r.2 + rest.2)

/-- Successful per-mode generations among the printed log lines. -/
def countSuccess (log : List LogEntry) : ℕ := (log.filter (·.success)).length

/-- Failure markers among the printed log lines. -/
def countFailure (log : List LogEntry) : ℕ :=
  (log.filter (fun e => !e.success)).length

/-- An emitter that never raises. -/
def emitOk : String → Canvas → Except String Unit := fun _ _ => .ok ()

/-! ## Claim C8: per-theme error handling and the final report -/

/-- Every (theme, mode) pair contributes either nothing (skipped), one
failure marker with no count, or one success message counting two files. -/
theorem processMode_shape (sq : ℚ → ℚ) (c135 s135 : ℚ)
    (emit : String → Canvas → Except String Unit) (name mode : String)
    (d? : Option ModeCfg) :
    processMode sq c135 s135 emit name mode d? = ([], 0) ∨
    processMode sq c135 s135 emit name mode d? = ([⟨name, mode, false⟩], 0) ∨
    processMode sq c135 s135 emit name mode d? = ([⟨name, mode, true⟩], 2) := by
  rcases d? with _ | cfg
  · exact Or.inl rfl
  · simp only [processMode]
    split
    · simp only [processColors]
      split
      · exact Or.inl rfl
      · split
        · exact Or.inr (Or.inl rfl)
        · simp only [emitPair]
          split
          · exact Or.inr (Or.inl rfl)
          · split
            · exact Or.inr (Or.inl rfl)
            · exact Or.inr (Or.inr rfl)
    · exact Or.inl rfl

theorem countSuccess_append (a b : List LogEntry) :
    countSuccess (a ++ b) = countSuccess a + countSuccess b := by
  simp [countSuccess]

theorem processMode_report (sq : ℚ → ℚ) (c135 s135 : ℚ)
    (emit : String → Canvas → Except String Unit) (name mode : String)
    (d? : Option ModeCfg) :
    (processMode sq c135 s135 emit name mode d?).2
      = 2 * countSuccess (processMode sq c135 s135 emit name mode d?).1 := by
  rcases processMode_shape sq c135 s135 emit name mode d? with h | h | h <;>
    rw [h] <;> rfl

theorem processTheme_report (sq : ℚ → ℚ) (c135 s135 : ℚ)
    (emit : String → Canvas → Except String Unit) (t : ThemeCfg) :
    (processTheme sq c135 s135 emit t).2
      = 2 * countSuccess (processTheme sq c135 s135 emit t).1 := by
  unfold processTheme
  dsimp only
  rw [countSuccess_append]
  have hd := processMode_report sq c135 s135 emit t.1 "dark" t.2.1
  have hl := processMode_report sq c135 s135 emit t.1 "light" t.2.2
  omega

/-- The count the driver reports at the end is twice the number of success
messages: failures are not aggregated. -/
theorem runThemes_report (sq : ℚ → ℚ) (c135 s135 : ℚ)
    (emit : String → Canvas → Except String Unit) (themes : List ThemeCfg) :
    (runThemes sq c135 s135 emit themes).2
      = 2 * countSuccess (runThemes sq c135 s135 emit themes).1 := by
  induction themes with
  | nil => rfl
  | cons t ts ih =>
    show ((processTheme sq c135 s135 emit t).1 ++ (runThemes sq c135 s135 emit ts).1,
      (processTheme sq c135 s135 emit t).2 + (runThemes sq c135 s135 emit ts).2).2
      = 2 * countSuccess ((processTheme sq c135 s135 emit t).1
          ++ (runThemes sq c135 s135 emit ts).1)
    rw [countSuccess_append]
    have ht := processTheme_report sq c135 s135 emit t
    omega

/-- Two concrete driver runs over the same writable destination: one with an
extra theme whose hex colours are malformed, one without it. -/
def pngRun1 : List LogEntry × ℕ :=
  runThemes (fun _ => 0) 1 0 emitOk
    [("alpha", (some (.direct ["zz0000"]), none)),
     ("beta", (some (.direct ["000000", "ffffff", "112233"]), none))]

/-- The same run without the failing theme. -/
def pngRun2 : List LogEntry × ℕ :=
  runThemes (fun _ => 0) 1 0 emitOk
    [("beta", (some (.direct ["000000", "ffffff", "112233"]), none))]

/-- C8, counterexample: the driver catches the failure, logs a marker and
continues, but the aggregate it reports at the end (`total_generated`,
line 210) is identical for two runs with different numbers of failures —
the end-of-batch report counts successes only, not "successes and
failures" as claimed. -/
theorem C8_report_counterexample :
    pngRun1.2 = pngRun2.2 ∧
    countFailure pngRun1.1 = 1 ∧
    countFailure pngRun2.1 = 0 ∧
    pngRun1.1 = [⟨"alpha", "dark", false⟩, ⟨"beta", "dark", true⟩] := by
  refine ⟨by decide, by decide, by decide, by decide⟩

/-- C8 (amended): errors are caught at per-(theme, mode) granularity — a
failing conversion or save yields exactly one failure marker and leaves the
rest of the batch untouched, the run over `t :: ts` being `t`'s own log
followed by the unchanged run over `ts` — and the aggregate count reported
at the end is the number of successfully generated files only (twice the
success messages); failures are logged individually but not aggregated. -/
theorem C8_partial_failure_amended (sq : ℚ → ℚ) (c135 s135 : ℚ)
    (emit : String → Canvas → Except String Unit)
    (t : ThemeCfg) (ts : List ThemeCfg) (colors : List String) (name : String)
    (hne : colors ≠ []) (hbad : (colors.take 3).mapM hex_to_rgb = none) :
    runThemes sq c135 s135 emit (t :: ts)
      = ((processTheme sq c135 s135 emit t).1 ++ (runThemes sq c135 s135 emit ts).1,
         (processTheme sq c135 s135 emit t).2 + (runThemes sq c135 s135 emit ts).2) ∧
    processMode sq c135 s135 emit name "dark" (some (.direct colors))
      = ([⟨name, "dark", false⟩], 0) ∧
    (∀ themes : List ThemeCfg, (runThemes sq c135 s135 emit themes).2
        = 2 * countSuccess (runThemes sq c135 s135 emit themes).1) := by
  refine ⟨rfl, ?_, runThemes_report sq c135 s135 emit⟩
  rcases colors with _ | ⟨c0, cs⟩
  · exact absurd rfl hne
  · simp only [processMode, extractColors]
    rw [if_pos (by rfl)]
    simp only [processColors]
    rw [if_neg (by simp)]
    rw [show ((c0 :: cs).take 3).mapM hex_to_rgb = none from hbad]

/-- C8, witness: the failure-marker equation at a malformed hex colour. -/
theorem C8_partial_failure_witness :
    processMode (fun _ => 0) 1 0 emitOk "alpha" "dark" (some (.direct ["zz0000"]))
      = ([⟨"alpha", "dark", false⟩], 0) :=
  (C8_partial_failure_amended (fun _ => 0) 1 0 emitOk ("alpha", (none, none)) []
    ["zz0000"] "alpha" (by decide) (by decide)).2.1

/-! ## Claim C9: a theme/mode with an empty colour list -/

/-- A fresh driver run whose first theme has an empty colour list wrapped
under a `'colors'` key. -/
def pngRun3 : List LogEntry × ℕ :=
  runThemes (fun _ => 0) 1 0 emitOk
    [("alpha", (some (.wrapped []), none)),
     ("beta", (some (.direct ["000000", "ffffff", "112233"]), none))]

/-- C9, counterexample: the theme with the empty colour list is skipped
*silently* — the driver prints no failure marker for it (no log entry for
"alpha" at all, zero failures in the whole run), while the other theme still
emits successfully.  The claim that a failure is reported for the
empty-palette theme is therefore false. -/
theorem C9_empty_colors_counterexample :
    pngRun3.1 = [⟨"beta", "dark", true⟩] ∧
    countFailure pngRun3.1 = 0 ∧
    (∀ e ∈ pngRun3.1, e.theme ≠ "alpha") ∧
    pngRun3.2 = 2 := by
  refine ⟨by decide, by decide, by decide, by decide⟩

/-- The configuration supplies no colours for this mode: key absent, or the
extracted colour list empty (direct empty list, empty list under `'colors'`,
or a value of neither accepted shape). -/
def modeColorsEmpty : Option ModeCfg → Prop
  | none => True
  | some cfg => extractColors cfg = []

theorem processMode_empty (sq : ℚ → ℚ) (c135 s135 : ℚ)
    (emit : String → Canvas → Except String Unit) (name mode : String)
    {d? : Option ModeCfg} (h : modeColorsEmpty d?) :
    processMode sq c135 s135 emit name mode d? = ([], 0) := by
  rcases d? with _ | cfg
  · rfl
  · simp only [processMode]
    split
    · simp only [processColors]
      rw [if_pos (by rw [show extractColors cfg = [] from h]; rfl)]
    · rfl

theorem runThemes_append (sq : ℚ → ℚ) (c135 s135 : ℚ)
    (emit : String → Canvas → Except String Unit) :
    ∀ a b : List ThemeCfg,
      runThemes sq c135 s135 emit (a ++ b)
        = ((runThemes sq c135 s135 emit a).1 ++ (runThemes sq c135 s135 emit b).1,
           (runThemes sq c135 s135 emit a).2 + (runThemes sq c135 s135 emit b).2) := by
  intro a b
  induction a with
  | nil => simp [runThemes]
  | cons t ts ih =>
    show ((processTheme sq c135 s135 emit t).1 ++ (runThemes sq c135 s135 emit (ts ++ b)).1,
      (processTheme sq c135 s135 emit t).2 + (runThemes sq c135 s135 emit (ts ++ b)).2) = _
    rw [ih]
    show (_ ++ (_ ++ _), _) = (_ ++ _ ++ _, _)
    rw [List.append_assoc]
    show (_, _ + (_ + _)) = (_, _ + _ + _)
    rw [Nat.add_assoc]

/-- C9 (amended): a theme/mode whose configuration yields an empty colour
list is skipped silently — it contributes no log line (in particular no
failure marker) and no generated files — and removing it from the batch
leaves the whole run unchanged, so every other theme still renders and
emits exactly as before. -/
theorem C9_empty_colors_amended (sq : ℚ → ℚ) (c135 s135 : ℚ)
    (emit : String → Canvas → Except String Unit) (name : String)
    (dark? light? : Option ModeCfg)
    (hd : modeColorsEmpty dark?) (hl : modeColorsEmpty light?)
    (pre post : List ThemeCfg) :
    processTheme sq c135 s135 emit (name, (dark?, light?)) = ([], 0) ∧
    runThemes sq c135 s135 emit (pre ++ (name, (dark?, light?)) :: post)
      = runThemes sq c135 s135 emit (pre ++ post) := by
  have hpt : processTheme sq c135 s135 emit (name, (dark?, light?)) = ([], 0) := by
    unfold processTheme
    dsimp only
    rw [processMode_empty sq c135 s135 emit name "dark" hd,
      processMode_empty sq c135 s135 emit name "light" hl]
    rfl
  refine ⟨hpt, ?_⟩
  rw [runThemes_append, runThemes_append]
  have hcons : runThemes sq c135 s135 emit ((name, (dark?, light?)) :: post)
      = runThemes sq c135 s135 emit post := by
    show ((processTheme sq c135 s135 emit (name, (dark?, light?))).1
        ++ (runThemes sq c135 s135 emit post).1,
      (processTheme sq c135 s135 emit (name, (dark?, light?))).2
        + (runThemes sq c135 s135 emit post).2) = _
    rw [hpt]
    simp
  rw [hcons]

/-- C9, witness: the silent skip at a concrete empty-palette theme. -/
theorem C9_empty_colors_witness :
    processTheme (fun _ => 0) 1 0 emitOk ("alpha", (some (.wrapped []), none))
      = ([], 0) :=
  (C9_empty_colors_amended (fun _ => 0) 1 0 emitOk "alpha" (some (.wrapped []))
    none rfl trivial [] []).1
